import Mathlib

/-!
Verification of `scrape_books.py` (Books-to-Scrape scraper).

Shallow embedding of the scraper's core: the price normalizer
`parse_price`, the per-card extraction and filter of `scrape_one_page`,
the pagination loop of `main`, and the URL resolution performed by
Python's `urllib.parse.urljoin` (modelled for hierarchical URLs without
query strings, parameters or fragments, the only shapes this program
produces). Floats are modelled as rationals: every numeric string the
cleaned-price alphabet admits is decimal, and the program only parses
and compares such values.
-/

namespace Scrape

/-! ### Price normalizer: `parse_price` (scrape_books.py lines 153-174) -/

/-- `re.sub(r"[^0-9.,]", "", raw)`: keep only digits, commas and periods. -/
def cleanPrice (raw : String) : String :=
  ⟨raw.data.filter (fun c => c.isDigit || c == ',' || c == '.')⟩

/-- Python `str.rfind` for a single character: index of the last
occurrence, `-1` when absent. -/
def rfind (l : List Char) (c : Char) : Int :=
  (l.length : Int) - 1 - ((l.reverse.findIdx (· == c) : Nat) : Int)

/-- Value of a list of decimal digit characters. -/
def digitsToNat (l : List Char) : Nat :=
  l.foldl (fun a c => a * 10 + (c.toNat - 48)) 0

/-- Python `float(s)` on the residue alphabet reachable here (digits and
separators only; no sign, exponent, whitespace or `inf`/`nan` can
survive the cleaning step): succeeds exactly when `s` is made of digits
and at most one period, with at least one digit. Returns the exact
decimal value as a rational. -/
def pyFloat (s : String) : Option Rat :=
  if (∀ c ∈ s.data, c.isDigit = true ∨ c = '.') ∧
      s.data.count '.' ≤ 1 ∧ 0 < (s.data.filter (fun c => c.isDigit)).length then
    let ip := s.data.takeWhile (fun c => c ≠ '.')
    let fp := (s.data.dropWhile (fun c => c ≠ '.')).drop 1
    some (mkRat (digitsToNat ip * 10 ^ fp.length + digitsToNat fp) (10 ^ fp.length))
  else
    none

/-- `s.replace(",", ".")` for the single-character pattern. -/
def replaceComma (s : String) : String :=
  ⟨s.data.map (fun c => if c = ',' then '.' else c)⟩

/-- `s.replace(c, "")` for a single-character pattern. -/
def removeChar (s : String) (c : Char) : String :=
  ⟨s.data.filter (fun x => x ≠ c)⟩

/-- The string finally handed to `float` by `parse_price` (the body of
the `try` block before the `float` call). -/
def parsePriceResidue (r : String) : String :=
  let s := cleanPrice r
  if 0 < s.data.count ',' ∧ 0 < s.data.count '.' then
    if rfind s.data ',' > rfind s.data '.' then
      replaceComma (removeChar s '.')
    else
      removeChar s ','
  else
    replaceComma s

/-- `parse_price(raw)`. `none` input models Python `None`; `if not raw`
rejects both `None` and the empty string. The `try`/`except` is the
`Option` in `pyFloat`. -/
def parse_price (raw : Option String) : Option Rat :=
  match raw with
  | none => none
  | some r =>
    if r = "" then none
    else pyFloat (parsePriceResidue r)

/-! ### Python `str.replace` and the mojibake repair (lines 192-196) -/

/-- Python `s.replace(pat, rep)` for a non-empty pattern `p :: ps`:
replace every non-overlapping occurrence, scanning left to right.
Structural recursion on a fuel that bounds the input length. -/
def replaceSubAux (p : Char) (ps rep : List Char) : Nat → List Char → List Char
  | 0, l => l
  | _ + 1, [] => []
  | fuel + 1, c :: rest =>
    if (p :: ps).isPrefixOf (c :: rest) then
      rep ++ replaceSubAux p ps rep fuel (rest.drop ps.length)
    else
      c :: replaceSubAux p ps rep fuel rest

def replaceSub (p : Char) (ps rep l : List Char) : List Char :=
  replaceSubAux p ps rep l.length l

/-- `pat in s` for a non-empty pattern (Python substring test). -/
def hasSubstr (pat : List Char) : List Char → Bool
  | [] => pat.isEmpty
  | c :: rest => pat.isPrefixOf (c :: rest) || hasSubstr pat rest

/-- The repair applied to the raw price text:
`if "Â£" in price: price = price.replace("Â£", "£")` followed by
`price.replace("\xa3", "£")` (note `"\xa3"` *is* `"£"`, U+00A3, so the
second replace rewrites the pound sign to itself). -/
def fix_mojibake (price : String) : String :=
  let price :=
    if hasSubstr ['Â', '£'] price.data then ⟨replaceSub 'Â' ['£'] ['£'] price.data⟩
    else price
  ⟨replaceSub '£' [] ['£'] price.data⟩

/-! ### `urllib.parse.urljoin`, modelled for the URLs this program
produces: hierarchical (`uses_relative`/`uses_netloc`) schemes, no query
string, no parameters, no fragment. Follows CPython `urllib/parse.py`. -/

structure SplitUrl where
  scheme : String
  netloc : String
  path : String
deriving Repr, DecidableEq

def isSchemeChar (c : Char) : Bool :=
  c.isAlphanum || c == '+' || c == '-' || c == '.'

/-- Split a leading `scheme:` off a URL when the text before the first
colon is a valid scheme (starts with a letter, scheme characters only);
the scheme is lower-cased, as in `urlsplit`. -/
def splitSchemeAux (l : List Char) : Option (String × List Char) :=
  match l.findIdx? (· == ':') with
  | none => none
  | some i =>
    let before := l.take i
    match before with
    | [] => none
    | c :: _ =>
      if c.isAlpha && before.all isSchemeChar then
        some (⟨before.map Char.toLower⟩, l.drop (i + 1))
      else none

def notNetlocEnd (c : Char) : Bool :=
  c ≠ '/' && c ≠ '?' && c ≠ '#'

/-- Split a leading `//netloc` off the remainder of a URL. -/
def splitNetlocAux (l : List Char) : List Char × List Char :=
  match l with
  | '/' :: '/' :: rest => (rest.takeWhile notNetlocEnd, rest.dropWhile notNetlocEnd)
  | _ => ([], l)

/-- `urlsplit(s, default_scheme)` restricted to scheme/netloc/path. -/
def urlsplit (s : String) (defaultScheme : String) : SplitUrl :=
  let (scheme, rest) :=
    match splitSchemeAux s.data with
    | some (sc, r) => (sc, r)
    | none => (defaultScheme, s.data)
  let (netloc, path) := splitNetlocAux rest
  ⟨scheme, ⟨netloc⟩, ⟨path⟩⟩

/-- `urlunsplit` restricted to scheme/netloc/path. -/
def urlunsplit (u : SplitUrl) : String :=
  let url := u.path
  let url :=
    if u.netloc ≠ "" ∨ (url ≠ "" ∧ url.data.take 2 = ['/', '/']) then
      "//" ++ u.netloc ++ (if url ≠ "" ∧ url.data.take 1 ≠ ['/'] then "/" ++ url else url)
    else url
  if u.scheme ≠ "" then u.scheme ++ ":" ++ url else url

/-- Python `s.split(sep)` for a single-character separator (structural
worker accumulating the current piece in reverse). -/
def splitCharAux (sep : Char) : List Char → List Char → List String
  | [], acc => [⟨acc.reverse⟩]
  | c :: rest, acc =>
    if c = sep then ⟨acc.reverse⟩ :: splitCharAux sep rest []
    else splitCharAux sep rest (c :: acc)

def splitOnSlash (s : String) : List String := splitCharAux '/' s.data []

/-- Python `'/'.join(l)`. -/
def joinSlash : List String → String
  | [] => ""
  | [s] => s
  | s :: rest => s ++ "/" ++ joinSlash rest

/-- CPython's `segments[1:-1] = filter(None, segments[1:-1])`: drop the
empty strings strictly between the first and last element. -/
def filterMiddle (l : List String) : List String :=
  match l with
  | [] => []
  | x :: rest =>
    match rest.getLast? with
    | none => [x]
    | some last => x :: (rest.dropLast.filter (fun s => s ≠ "")) ++ [last]

/-- CPython's resolution loop over path segments: `..` pops (ignoring
underflow), `.` is skipped, everything else is appended. -/
def resolveSegs (segs : List String) : List String :=
  segs.foldl
    (fun acc seg =>
      if seg = ".." then acc.dropLast
      else if seg = "." then acc
      else acc ++ [seg])
    []

/-- `urljoin(base, url)` (CPython algorithm, query/params/fragment-free
URLs over hierarchical schemes). -/
def urljoin (base url : String) : String :=
  if base = "" then url
  else if url = "" then base
  else
    let b := urlsplit base ""
    let u := urlsplit url b.scheme
    if u.scheme ≠ b.scheme then url
    else if u.netloc ≠ "" then urlunsplit u
    else
      let netloc := b.netloc
      if u.path = "" then urlunsplit ⟨u.scheme, netloc, b.path⟩
      else
        let baseParts := splitOnSlash b.path
        let baseParts :=
          if baseParts.getLast? ≠ some "" then baseParts.dropLast else baseParts
        let segments :=
          if u.path.data.take 1 = ['/'] then splitOnSlash u.path
          else filterMiddle (baseParts ++ splitOnSlash u.path)
        let resolved := resolveSegs segments
        let resolved :=
          if segments.getLast? = some "." ∨ segments.getLast? = some ".." then
            resolved ++ [""]
          else resolved
        let p := joinSlash resolved
        urlunsplit ⟨u.scheme, netloc, if p = "" then "/" else p⟩

/-! ### Page extractor: `scrape_one_page` (lines 182-209) -/

/-- One `article.product_pod` card as the extractor sees it. `none` in
`priceText`/`stockText` models `select_one` finding no matching element
(Python `None`); the `String` is the element's `get_text(strip=True)`.
`titleAttr`/`hrefAttr` model the anchor's `title`/`href` attributes,
absent when the attribute is missing. -/
structure Card where
  titleAttr : Option String
  priceText : Option String
  stockText : Option String
  hrefAttr : Option String
deriving Repr, DecidableEq

/-- One parsed catalogue page: its cards in document order, plus the
`li.next a` href when that element exists. -/
structure Page where
  cards : List Card
  nextHref : Option String
deriving Repr, DecidableEq

/-- One output row `[title, price, price_value, stock, full_url]`. -/
structure Row where
  title : String
  price_raw : String
  price_value : Option Rat
  stock : String
  url : String
deriving Repr, DecidableEq

/-- The filter test of line 202:
`(max_price is None) or (price_value is not None and price_value <= max_price)`. -/
def keepRow (maxPrice priceValue : Option Rat) : Bool :=
  match maxPrice with
  | none => true
  | some m =>
    match priceValue with
    | none => false
    | some v => decide (v ≤ m)

/-- Python `str.strip()` (no argument): drop leading and trailing
whitespace. -/
def pyStrip (s : String) : String :=
  ⟨((s.data.dropWhile Char.isWhitespace).reverse.dropWhile Char.isWhitespace).reverse⟩

/-- The body of the per-card loop (lines 191-203) up to the filter test.
`select_one` returning `None` followed by `.get_text` is an
`AttributeError` that propagates out of `scrape_one_page`. -/
def extract_card (pageUrl : String) (card : Card) : Except String Row :=
  let title := pyStrip (card.titleAttr.getD "")
  match card.priceText with
  | none => .error "AttributeError: price element missing"
  | some ptext =>
    let price := fix_mojibake ptext
    match card.stockText with
    | none => .error "AttributeError: stock element missing"
    | some stock =>
      let relLink := card.hrefAttr.getD ""
      let fullUrl := urljoin pageUrl relLink
      let priceValue := parse_price (some price)
      .ok ⟨title, price, priceValue, stock, fullUrl⟩

/-- The per-card loop of `scrape_one_page`: build each row in document
order, append it when the filter test passes, and propagate the first
card's `AttributeError` if one occurs. -/
def extract_rows (pageUrl : String) (maxPrice : Option Rat) : List Card → Except String (List Row)
  | [] => .ok []
  | card :: rest =>
    match extract_card pageUrl card with
    | .error e => .error e
    | .ok row =>
      match extract_rows pageUrl maxPrice rest with
      | .error e => .error e
      | .ok rows => .ok (if keepRow maxPrice row.price_value then row :: rows else rows)

/-- `scrape_one_page(url, max_price)`. The HTTP collaborator
(`requests.get` + `raise_for_status` + HTML parsing into cards) is the
`fetch` argument; errors model the raised HTTP/attribute exceptions. -/
def scrape_one_page (fetch : String → Except String Page) (url : String)
    (maxPrice : Option Rat) : Except String (List Row × Option String) :=
  match fetch url with
  | .error e => .error e
  | .ok page =>
    match extract_rows url maxPrice page.cards with
    | .error e => .error e
    | .ok rows => .ok (rows, page.nextHref.map (fun h => urljoin url h))

/-! ### Pagination driver: `main` (lines 224-246) -/

/-- Observable outcome of a run: the header row written on opening the
freshly truncated CSV, the data rows appended to it in order, the
running total, the URLs fetched in order, the number of `time.sleep`
calls performed, and the propagated exception, if any. -/
structure RunResult where
  header : List String
  rows : List Row
  total : Nat
  fetched : List String
  sleeps : Nat
  err : Option String
deriving Repr, DecidableEq

def csvHeader : List String := ["title", "price_raw", "price_value", "stock", "url"]

/-- The `for page_num in range(1, pages + 1)` loop, with the remaining
iteration count as fuel. Each iteration fetches `current`, writes the
page's rows, breaks when `next_url` is falsy, and otherwise sleeps and
advances the cursor — including on the final planned iteration. -/
def mainLoop (fetch : String → Except String Page) (maxPrice : Option Rat) :
    Nat → String → RunResult → RunResult
  | 0, _, acc => acc
  | n + 1, current, acc =>
    let acc := { acc with fetched := acc.fetched ++ [current] }
    match scrape_one_page fetch current maxPrice with
    | .error e => { acc with err := some e }
    | .ok (rows, nextUrl) =>
      let acc := { acc with rows := acc.rows ++ rows, total := acc.total + rows.length }
      match nextUrl with
      | none => acc
      | some nxt => mainLoop fetch maxPrice n nxt { acc with sleeps := acc.sleeps + 1 }

/-- `main()` with `pages`, `max_price` and `start_url` from the parsed
arguments: truncate the output file, write the header, then run the
loop. `pages` is an `Int` since `--pages` accepts any integer;
`range(1, pages + 1)` has `max pages 0` iterations. -/
def mainRun (fetch : String → Except String Page) (pages : Int) (maxPrice : Option Rat)
    (startUrl : String) : RunResult :=
  mainLoop fetch maxPrice pages.toNat startUrl ⟨csvHeader, [], 0, [], 0, none⟩

deriving instance DecidableEq for Except

/-! ### Spec-side definitions (worded from the spec, for refinement
claims) and concrete fixtures -/

/-- From the spec's words for a cleaned string holding both separators:
"treat whichever separator occurs last (rightmost) as the decimal
separator. If comma is last, remove all periods (treated as thousands
separators) then replace the comma with a period. If period is last,
remove all commas." -/
def specLastSeparatorRule (s : String) : String :=
  if rfind s.data ',' > rfind s.data '.' then
    replaceComma (removeChar s '.')
  else
    removeChar s ','

/-- Raw price texts in which every occurrence of `'Â'` is immediately
followed by `'£'` (i.e. every `'Â'` opens a mojibake pair). -/
def mojibakeSafe : List Char → Bool
  | [] => true
  | c :: rest =>
    if c = 'Â' then
      match rest with
      | b :: rest2 => b = '£' && mojibakeSafe rest2
      | [] => false
    else mojibakeSafe rest

/-- Fixture: three priced cards, as on a catalogue page. -/
def cardA : Card := ⟨some "Book A", some "£10.00", some "In stock", some "a_1/index.html"⟩

def cardB : Card := ⟨some "Book B", some "£25.50", some "In stock", some "b_2/index.html"⟩

def cardC : Card := ⟨some "Book C", some "£60.00", some "In stock", some "c_3/index.html"⟩

def fixtureUrl1 : String := "https://example.com/catalogue/page-1.html"

def fixturePage1 : Page := ⟨[cardA, cardB, cardC], some "page-2.html"⟩

def rowA : Row :=
  ⟨"Book A", "£10.00", some (mkRat 10 1), "In stock",
    "https://example.com/catalogue/a_1/index.html"⟩

def rowB : Row :=
  ⟨"Book B", "£25.50", some (mkRat 2550 100), "In stock",
    "https://example.com/catalogue/b_2/index.html"⟩

def rowC : Row :=
  ⟨"Book C", "£60.00", some (mkRat 60 1), "In stock",
    "https://example.com/catalogue/c_3/index.html"⟩

/-- Fixture fetcher: page 1 is served, anything else is an HTTP error. -/
def fixtureFetch : String → Except String Page := fun u =>
  if u = fixtureUrl1 then .ok fixturePage1 else .error "HTTP 404"

/-- Fixture: every URL serves an empty page that has a next-link. -/
def pageWithNext : Page := ⟨[], some "page-2.html"⟩

def fetchAlwaysNext : String → Except String Page := fun _ => .ok pageWithNext

/-- Fixture: a card whose price element is absent. -/
def cardNoPrice : Card := ⟨some "Broken", none, some "In stock", some "x_9/index.html"⟩

def fetchNoPrice : String → Except String Page := fun _ => .ok ⟨[cardNoPrice], none⟩

/-- Fixture: a card whose raw price text starts with doubled mojibake. -/
def cardMoji : Card := ⟨some "Odd", some "ÂÂ££9.99", some "In stock", some "m_7/index.html"⟩

/-- Fixture fetcher for the fatal-fetch scenario: page 1 succeeds and
points at page 2, whose fetch raises. -/
def fetchFailPage2 : String → Except String Page := fun u =>
  if u = "p1" then .ok ⟨[cardA], some "p2"⟩ else .error "HTTP 500"

end Scrape


namespace Scrape

/-! ### Helper lemmas -/

lemma parsePriceResidue_eq (raw : String) :
    parsePriceResidue raw =
      if 0 < (cleanPrice raw).data.count ',' ∧ 0 < (cleanPrice raw).data.count '.' then
        (if rfind (cleanPrice raw).data ',' > rfind (cleanPrice raw).data '.' then
          replaceComma (removeChar (cleanPrice raw) '.')
        else removeChar (cleanPrice raw) ',')
      else replaceComma (cleanPrice raw) := rfl

lemma parse_price_some_eq (raw : String) :
    parse_price (some raw) =
      if raw = "" then none else pyFloat (parsePriceResidue raw) := rfl

lemma digit_mem_replaceComma {s : String} {c : Char} (hd : c.isDigit = true)
    (h : c ∈ (replaceComma s).data) : c ∈ s.data := by
  simp only [replaceComma, List.mem_map] at h
  obtain ⟨a, ha, hfa⟩ := h
  by_cases h2 : a = ','
  · subst h2
    rw [if_pos rfl] at hfa
    subst hfa
    exact absurd hd (by decide)
  · rw [if_neg h2] at hfa
    subst hfa
    exact ha

lemma digit_mem_removeChar {s : String} {x c : Char} (h : c ∈ (removeChar s x).data) :
    c ∈ s.data := by
  simp only [removeChar, List.mem_filter] at h
  exact h.1

lemma residue_digitless {raw : String}
    (h : (cleanPrice raw).data.filter (fun c => c.isDigit) = []) :
    (parsePriceResidue raw).data.filter (fun c => c.isDigit) = [] := by
  rw [List.filter_eq_nil_iff] at h ⊢
  intro c hc
  rw [parsePriceResidue_eq] at hc
  intro hdig
  refine h c ?_ hdig
  split at hc
  · split at hc
    · exact digit_mem_removeChar (digit_mem_replaceComma hdig hc)
    · exact digit_mem_removeChar hc
  · exact digit_mem_replaceComma hdig hc

lemma extract_rows_filter (u : String) (mp : Option Rat) :
    ∀ (cards : List Card) (rows unfiltered : List Row),
      extract_rows u none cards = .ok unfiltered →
      extract_rows u mp cards = .ok rows →
      rows = unfiltered.filter (fun r => keepRow mp r.price_value) := by
  intro cards
  induction cards with
  | nil =>
    intro rows unf hu hf
    simp only [extract_rows, Except.ok.injEq] at hu hf
    subst hu
    subst hf
    rfl
  | cons card rest ih =>
    intro rows unf hu hf
    cases hec : extract_card u card with
    | error e =>
      simp [extract_rows, hec] at hu
    | ok row =>
      cases hru : extract_rows u none rest with
      | error e => simp [extract_rows, hec, hru] at hu
      | ok unfRest =>
        cases hrf : extract_rows u mp rest with
        | error e => simp [extract_rows, hec, hrf] at hf
        | ok rowsRest =>
          simp only [extract_rows, hec, hru, keepRow, if_true, Except.ok.injEq] at hu
          simp only [extract_rows, hec, hrf, Except.ok.injEq] at hf
          subst hu
          subst hf
          rw [List.filter_cons, ih rowsRest unfRest hru hrf]

lemma extract_card_ok_iff (u : String) (c : Card) :
    (∃ row, extract_card u c = .ok row) ↔ (c.priceText ≠ none ∧ c.stockText ≠ none) := by
  constructor
  · rintro ⟨row, h⟩
    refine ⟨?_, ?_⟩ <;> intro hn
    · simp [extract_card, hn] at h
    · cases hp : c.priceText with
      | none => simp [extract_card, hp] at h
      | some p => simp [extract_card, hp, hn] at h
  · rintro ⟨hp, hs⟩
    cases hpv : c.priceText with
    | none => exact absurd hpv hp
    | some p =>
      cases hsv : c.stockText with
      | none => exact absurd hsv hs
      | some s =>
        exact ⟨⟨pyStrip (c.titleAttr.getD ""), fix_mojibake p,
          parse_price (some (fix_mojibake p)), s, urljoin u (c.hrefAttr.getD "")⟩,
          by simp [extract_card, hpv, hsv]⟩

lemma extract_card_ok_url {u : String} {c : Card} {row : Row}
    (h : extract_card u c = .ok row) : row.url = urljoin u (c.hrefAttr.getD "") := by
  cases hp : c.priceText with
  | none => simp [extract_card, hp] at h
  | some p =>
    cases hs : c.stockText with
    | none => simp [extract_card, hp, hs] at h
    | some s =>
      simp only [extract_card, hp, hs, Except.ok.injEq] at h
      subst h
      rfl

lemma extract_rows_row_from_card (u : String) (mp : Option Rat) :
    ∀ (cards : List Card) (rows : List Row), extract_rows u mp cards = .ok rows →
      ∀ r ∈ rows, ∃ c ∈ cards, extract_card u c = .ok r := by
  intro cards
  induction cards with
  | nil =>
    intro rows h r hr
    simp only [extract_rows, Except.ok.injEq] at h
    subst h
    simp at hr
  | cons card rest ih =>
    intro rows h r hr
    cases hec : extract_card u card with
    | error e => simp [extract_rows, hec] at h
    | ok row =>
      cases hrr : extract_rows u mp rest with
      | error e => simp [extract_rows, hec, hrr] at h
      | ok rs =>
        simp only [extract_rows, hec, hrr, Except.ok.injEq] at h
        subst h
        by_cases hk : keepRow mp row.price_value = true
        · rw [if_pos hk] at hr
          rcases List.mem_cons.mp hr with h1 | h1
          · subst h1
            exact ⟨card, List.mem_cons_self card rest, hec⟩
          · obtain ⟨c, hc, hcr⟩ := ih rs hrr r h1
            exact ⟨c, List.mem_cons_of_mem card hc, hcr⟩
        · rw [if_neg hk] at hr
          obtain ⟨c, hc, hcr⟩ := ih rs hrr r hr
          exact ⟨c, List.mem_cons_of_mem card hc, hcr⟩

/-! ### Claim theorems -/

/-- Claim C1: for an input whose cleaned form (digits, commas, periods
only) contains both a comma and a period, `parse_price` treats the
rightmost separator as the decimal separator — comma last: remove all
periods and turn the comma into a period; period last: remove all
commas — and in particular `"1.234,56"` and `"1,234.56"` both parse to
`1234.56`, and `"£51.77"` parses to `51.77`. -/
theorem parse_price_rightmost_separator (raw : String) (h0 : raw ≠ "")
    (hc : 0 < (cleanPrice raw).data.count ',')
    (hd : 0 < (cleanPrice raw).data.count '.') :
    parse_price (some raw) = pyFloat (specLastSeparatorRule (cleanPrice raw))
    ∧ parse_price (some "1.234,56") = some (1234.56 : Rat)
    ∧ parse_price (some "1,234.56") = some (1234.56 : Rat)
    ∧ parse_price (some "£51.77") = some (51.77 : Rat) := by
  refine ⟨?_, ?_, ?_, ?_⟩
  · rw [parse_price_some_eq, if_neg h0, parsePriceResidue_eq, if_pos ⟨hc, hd⟩]
    rfl
  · rw [show parse_price (some "1.234,56") = some (mkRat 123456 100) from by decide]
    simp only [Option.some.injEq]
    norm_num [Rat.mkRat_eq_div]
  · rw [show parse_price (some "1,234.56") = some (mkRat 123456 100) from by decide]
    simp only [Option.some.injEq]
    norm_num [Rat.mkRat_eq_div]
  · rw [show parse_price (some "£51.77") = some (mkRat 5177 100) from by decide]
    simp only [Option.some.injEq]
    norm_num [Rat.mkRat_eq_div]

/-- Witness for C1 at the concrete input `"1.234,56"`. -/
theorem parse_price_rightmost_separator_witness :
    parse_price (some "1.234,56") = some (1234.56 : Rat) :=
  (parse_price_rightmost_separator "1.234,56" (by decide) (by decide) (by decide)).2.1

/-- Claim C6: `parse_price` returns absent (`none`, not an error) on
missing input, on the empty string, on `"N/A"`, on every input whose
cleaned string holds no digit, and on every input whose final residue
keeps two or more separators. -/
theorem parse_price_absent_on_unparseable :
    parse_price none = none
    ∧ parse_price (some "") = none
    ∧ parse_price (some "N/A") = none
    ∧ (∀ raw : String, (cleanPrice raw).data.filter (fun c => c.isDigit) = [] →
        parse_price (some raw) = none)
    ∧ (∀ raw : String, 2 ≤ (parsePriceResidue raw).data.count '.' →
        parse_price (some raw) = none) := by
  refine ⟨rfl, rfl, by decide, ?_, ?_⟩
  · intro raw h
    rw [parse_price_some_eq]
    by_cases he : raw = ""
    · rw [if_pos he]
    · rw [if_neg he]
      unfold pyFloat
      rw [if_neg]
      rintro ⟨-, -, h3⟩
      rw [residue_digitless h] at h3
      simp at h3
  · intro raw h
    rw [parse_price_some_eq]
    by_cases he : raw = ""
    · rw [if_pos he]
    · rw [if_neg he]
      unfold pyFloat
      rw [if_neg]
      rintro ⟨-, h2, -⟩
      omega

/-- Witness for C6 at the concrete input `"1.2.3,4,5"`, whose residue
keeps two periods. -/
theorem parse_price_absent_on_unparseable_witness :
    parse_price (some "1.2.3,4,5") = none :=
  parse_price_absent_on_unparseable.2.2.2.2 "1.2.3,4,5" (by decide)

/-- Claim C10: with a non-positive page budget the driver performs no
fetch, emits no rows, reports total 0, and the freshly truncated output
file still receives the header row. -/
theorem main_zero_budget (fetch : String → Except String Page) (mp : Option Rat)
    (start : String) (pages : Int) (hp : pages ≤ 0) :
    mainRun fetch pages mp start = ⟨csvHeader, [], 0, [], 0, none⟩ := by
  unfold mainRun
  rw [Int.toNat_of_nonpos hp]
  rfl

/-- Witness for C10 at budget `-2`. -/
theorem main_zero_budget_witness :
    mainRun fixtureFetch (-2) none "x" = ⟨csvHeader, [], 0, [], 0, none⟩ :=
  main_zero_budget fixtureFetch none "x" (-2) (by decide)

end Scrape

namespace Scrape

/-- Claim C2: extraction includes a card's record iff `max_price` is
absent or the record's `price_value` is present and `≤ max_price`: the
filtered output is exactly the unfiltered output filtered by that
predicate, every emitted record satisfies the active predicate, and an
absent `max_price` leaves the record list unchanged. -/
theorem scrape_filter_policy (pageUrl : String) (mp : Option Rat) (cards : List Card)
    (rows unfiltered : List Row)
    (hu : extract_rows pageUrl none cards = .ok unfiltered)
    (hf : extract_rows pageUrl mp cards = .ok rows) :
    rows = unfiltered.filter (fun r => keepRow mp r.price_value)
    ∧ (∀ r ∈ rows, keepRow mp r.price_value = true)
    ∧ (mp = none → rows = unfiltered) := by
  have h1 := extract_rows_filter pageUrl mp cards rows unfiltered hu hf
  refine ⟨h1, ?_, ?_⟩
  · intro r hr
    rw [h1] at hr
    exact (List.mem_filter.mp hr).2
  · intro hmp
    subst hmp
    rw [h1]
    simp [keepRow]

/-- Witness for C2 on the three-card fixture page with
`max_price = 20`: only the 10.00 record survives. -/
theorem scrape_filter_policy_witness :
    [rowA] = ([rowA, rowB, rowC]).filter
      (fun r => keepRow (some (mkRat 20 1)) r.price_value) :=
  (scrape_filter_policy fixtureUrl1 (some (mkRat 20 1)) fixturePage1.cards
    [rowA] [rowA, rowB, rowC] (by decide) (by decide)).1

/-- Counterexample to claim C5: a card whose price element is absent
makes the page extraction raise (`AttributeError` on `None`), so the
whole run aborts with an error and emits no rows — the missing element
is not handled by a skip-or-substitute policy. -/
theorem extract_missing_price_counterexample :
    extract_rows "https://example.com/page-1.html" none [cardNoPrice]
      = .error "AttributeError: price element missing"
    ∧ (mainRun fetchNoPrice 1 none "https://example.com/page-1.html").err
      = some "AttributeError: price element missing"
    ∧ (mainRun fetchNoPrice 1 none "https://example.com/page-1.html").rows = [] := by
  refine ⟨by decide, by decide, by decide⟩

/-- Claim C5 as amended: extraction of a page succeeds exactly when
every card carries both its price element and its stock element; a card
lacking either one raises an error that aborts the whole extraction
(only missing `title`/`href` attributes are substituted by `""`). -/
theorem extract_missing_element_crashes (pageUrl : String) (mp : Option Rat) :
    ∀ cards : List Card,
      ((∃ rows, extract_rows pageUrl mp cards = .ok rows) ↔
        ∀ c ∈ cards, c.priceText ≠ none ∧ c.stockText ≠ none) := by
  intro cards
  induction cards with
  | nil => simp [extract_rows]
  | cons card rest ih =>
    constructor
    · rintro ⟨rows, h⟩
      cases hec : extract_card pageUrl card with
      | error e => simp [extract_rows, hec] at h
      | ok row =>
        cases hr : extract_rows pageUrl mp rest with
        | error e => simp [extract_rows, hec, hr] at h
        | ok rs =>
          intro c hc
          rcases List.mem_cons.mp hc with h1 | h1
          · subst h1
            exact (extract_card_ok_iff pageUrl c).mp ⟨row, hec⟩
          · exact (ih.mp ⟨rs, hr⟩) c h1
    · intro hall
      obtain ⟨row, hrow⟩ := (extract_card_ok_iff pageUrl card).mpr (hall card (by simp))
      obtain ⟨rs, hrs⟩ := ih.mpr (fun c hc => hall c (by simp [hc]))
      exact ⟨if keepRow mp row.price_value then row :: rs else rs,
        by simp [extract_rows, hrow, hrs]⟩

/-- Witness for the amended C5: a page whose single card has both its
price and stock elements extracts successfully. -/
theorem extract_missing_element_crashes_witness :
    ∃ rows, extract_rows "https://example.com/p" none [cardA] = .ok rows :=
  (extract_missing_element_crashes "https://example.com/p" none [cardA]).mpr (by decide)

/-- Counterexample to claim C8: the href `"catalogue/item_1/index.html"`
against page URL `"https://example.com/catalogue/page-1.html"` resolves
(by the standard merge the code performs) to
`".../catalogue/catalogue/item_1/index.html"`, not to the
`".../catalogue/item_1/index.html"` the claim asserts. -/
theorem url_resolution_counterexample :
    urljoin "https://example.com/catalogue/page-1.html" "catalogue/item_1/index.html"
      = "https://example.com/catalogue/catalogue/item_1/index.html"
    ∧ urljoin "https://example.com/catalogue/page-1.html" "catalogue/item_1/index.html"
      ≠ "https://example.com/catalogue/item_1/index.html" := by
  exact ⟨by decide, by decide⟩

/-- Claim C8 as amended: every emitted record's URL is the page URL
joined with the card's href by standard relative-URL resolution; the
spec's example href resolves to the double-`catalogue` URL (the base's
last segment is dropped, then the relative path appended), while
scheme-relative and already-absolute hrefs resolve as usual. -/
theorem url_resolution_amended (pageUrl : String) (mp : Option Rat) (cards : List Card)
    (rows : List Row) (h : extract_rows pageUrl mp cards = .ok rows) :
    (∀ r ∈ rows, ∃ c ∈ cards, r.url = urljoin pageUrl (c.hrefAttr.getD ""))
    ∧ urljoin "https://example.com/catalogue/page-1.html" "catalogue/item_1/index.html"
        = "https://example.com/catalogue/catalogue/item_1/index.html"
    ∧ urljoin "https://example.com/catalogue/page-1.html" "//cdn.example.com/style.css"
        = "https://cdn.example.com/style.css"
    ∧ urljoin "https://example.com/catalogue/page-1.html"
          "https://other.example.org/item_1/index.html"
        = "https://other.example.org/item_1/index.html" := by
  refine ⟨?_, by decide, by decide, by decide⟩
  intro r hr
  obtain ⟨c, hc, hcr⟩ := extract_rows_row_from_card pageUrl mp cards rows h r hr
  exact ⟨c, hc, extract_card_ok_url hcr⟩

/-- Witness for the amended C8 on the fixture page. -/
theorem url_resolution_witness :
    urljoin "https://example.com/catalogue/page-1.html" "catalogue/item_1/index.html"
      = "https://example.com/catalogue/catalogue/item_1/index.html" :=
  (url_resolution_amended fixtureUrl1 none fixturePage1.cards [rowA, rowB, rowC]
    (by decide)).2.1

end Scrape

namespace Scrape

lemma mainLoop_succ (fetch : String → Except String Page) (mp : Option Rat)
    (n : Nat) (cur : String) (acc : RunResult) :
    mainLoop fetch mp (n + 1) cur acc =
      match scrape_one_page fetch cur mp with
      | .error e => { acc with fetched := acc.fetched ++ [cur], err := some e }
      | .ok (rows, nextUrl) =>
        match nextUrl with
        | none =>
          { acc with fetched := acc.fetched ++ [cur], rows := acc.rows ++ rows,
                     total := acc.total + rows.length }
        | some nxt =>
          mainLoop fetch mp n nxt
            { acc with fetched := acc.fetched ++ [cur], rows := acc.rows ++ rows,
                       total := acc.total + rows.length, sleeps := acc.sleeps + 1 } := rfl

lemma scrape_one_page_err {fetch : String → Except String Page} {u : String}
    {mp : Option Rat} {e : String} (h : fetch u = .error e) :
    scrape_one_page fetch u mp = .error e := by
  simp [scrape_one_page, h]

lemma scrape_one_page_ok {fetch : String → Except String Page} {u : String}
    {mp : Option Rat} {page : Page} {rows : List Row} (h : fetch u = .ok page)
    (h2 : extract_rows u mp page.cards = .ok rows) :
    scrape_one_page fetch u mp = .ok (rows, page.nextHref.map (fun nh => urljoin u nh)) := by
  simp [scrape_one_page, h, h2]

lemma mainLoop_fetched_le (fetch : String → Except String Page) (mp : Option Rat) :
    ∀ (n : Nat) (cur : String) (acc : RunResult),
      (mainLoop fetch mp n cur acc).fetched.length ≤ acc.fetched.length + n := by
  intro n
  induction n with
  | zero =>
    intro cur acc
    simp [mainLoop]
  | succ n ih =>
    intro cur acc
    rw [mainLoop_succ]
    cases h : scrape_one_page fetch cur mp with
    | error e =>
      simp only [List.length_append, List.length_cons, List.length_nil]
      omega
    | ok pr =>
      obtain ⟨rows, nextUrl⟩ := pr
      cases nextUrl with
      | none =>
        simp only [List.length_append, List.length_cons, List.length_nil]
        omega
      | some nxt =>
        have h2 := ih nxt
          { acc with fetched := acc.fetched ++ [cur], rows := acc.rows ++ rows,
                     total := acc.total + rows.length, sleeps := acc.sleeps + 1 }
        simp only [List.length_append, List.length_cons, List.length_nil] at h2 ⊢
        omega

/-- Claim C3: the driver fetches at most `page_budget` pages; when an
extracted page has no next-link the loop ends with no further fetch,
whatever budget remains; and with `page_budget = 1` exactly one page is
fetched regardless of any next-link. -/
theorem pagination_budget_and_early_stop (fetch : String → Except String Page)
    (mp : Option Rat) (pages : Int) (start : String) (_hp : 1 ≤ pages) :
    (mainRun fetch pages mp start).fetched.length ≤ pages.toNat
    ∧ (∀ (cur : String) (acc : RunResult) (n : Nat) (page : Page) (rows : List Row),
        fetch cur = .ok page → extract_rows cur mp page.cards = .ok rows →
        page.nextHref = none →
        mainLoop fetch mp (n + 1) cur acc =
          { acc with fetched := acc.fetched ++ [cur], rows := acc.rows ++ rows,
                     total := acc.total + rows.length })
    ∧ (mainRun fetch 1 mp start).fetched = [start] := by
  refine ⟨?_, ?_, ?_⟩
  · have h := mainLoop_fetched_le fetch mp pages.toNat start ⟨csvHeader, [], 0, [], 0, none⟩
    simpa [mainRun] using h
  · intro cur acc n page rows h1 h2 h3
    rw [mainLoop_succ, scrape_one_page_ok h1 h2, h3]
    rfl
  · show (mainLoop fetch mp 1 start ⟨csvHeader, [], 0, [], 0, none⟩).fetched = [start]
    rw [mainLoop_succ]
    cases h : scrape_one_page fetch start mp with
    | error e => rfl
    | ok pr =>
      obtain ⟨rows, nextUrl⟩ := pr
      cases nextUrl with
      | none => rfl
      | some nxt => rfl

/-- Witness for C3: on the fixture fetcher with budget 2 at most two
pages are fetched. -/
theorem pagination_budget_witness :
    (mainRun fixtureFetch 2 none fixtureUrl1).fetched.length ≤ (2 : Int).toNat :=
  (pagination_budget_and_early_stop fixtureFetch none 2 fixtureUrl1 (by decide)).1

/-- Counterexample to claim C4: with `page_budget = 1` and a page that
still has a next-link, the run performs one wait after its only (hence
last) fetch — the wait is not skipped after the final planned
iteration. -/
theorem trailing_sleep_counterexample :
    (mainRun fetchAlwaysNext 1 none "https://example.com/catalogue/page-1.html").sleeps = 1
    ∧ (mainRun fetchAlwaysNext 1 none
        "https://example.com/catalogue/page-1.html").fetched.length = 1 := by
  exact ⟨by decide, by decide⟩

/-- Claim C4 as amended: the wait is skipped exactly when the iteration
terminates the loop because the page has no next-link (or the fetch
fails); after the final planned iteration the driver still waits
whenever that page carries a next-link, so a trailing wait does occur
then. -/
theorem sleep_policy_amended (fetch : String → Except String Page) (mp : Option Rat)
    (cur : String) (acc : RunResult) (n : Nat) (page : Page) (rows : List Row)
    (h1 : fetch cur = .ok page) (h2 : extract_rows cur mp page.cards = .ok rows) :
    (page.nextHref = none → (mainLoop fetch mp (n + 1) cur acc).sleeps = acc.sleeps)
    ∧ (∀ nh, page.nextHref = some nh →
        (mainLoop fetch mp 1 cur acc).sleeps = acc.sleeps + 1) := by
  constructor
  · intro h3
    rw [mainLoop_succ, scrape_one_page_ok h1 h2, h3]
    rfl
  · intro nh h3
    rw [mainLoop_succ, scrape_one_page_ok h1 h2, h3]
    rfl

/-- Witness for the amended C4: a budget-1 run over a page with a
next-link sleeps once. -/
theorem sleep_policy_amended_witness :
    (mainLoop fetchAlwaysNext none 1 "u" ⟨csvHeader, [], 0, [], 0, none⟩).sleeps = 0 + 1 :=
  (sleep_policy_amended fetchAlwaysNext none "u" ⟨csvHeader, [], 0, [], 0, none⟩ 0
    pageWithNext [] (by decide) (by decide)).2 "page-2.html" (by decide)

/-- Claim C7: when the fetch of the current page raises, the loop ends
at once — the failed URL is recorded as attempted, the error propagates,
and everything already written to the sink (`rows`, `total`, the pages
fetched before) is left exactly as it was: no retry, no loss of
previously emitted records. -/
theorem fetch_failure_aborts (fetch : String → Except String Page) (mp : Option Rat)
    (n : Nat) (cur : String) (acc : RunResult) (e : String)
    (hfail : fetch cur = .error e) :
    mainLoop fetch mp (n + 1) cur acc =
      { acc with fetched := acc.fetched ++ [cur], err := some e }
    ∧ (mainLoop fetch mp (n + 1) cur acc).rows = acc.rows
    ∧ (mainLoop fetch mp (n + 1) cur acc).err = some e := by
  have h1 : mainLoop fetch mp (n + 1) cur acc =
      { acc with fetched := acc.fetched ++ [cur], err := some e } := by
    rw [mainLoop_succ, scrape_one_page_err hfail]
  exact ⟨h1, by rw [h1], by rw [h1]⟩

/-- Witness for C7: after a successful page 1 (one record emitted), the
failing fetch of page 2 aborts the run and keeps the page-1 record. -/
theorem fetch_failure_aborts_witness :
    mainLoop fetchFailPage2 none 1 "p2" ⟨csvHeader, [rowA], 1, ["p1"], 1, none⟩ =
      ⟨csvHeader, [rowA], 1, ["p1", "p2"], 1, some "HTTP 500"⟩ := by
  rw [(fetch_failure_aborts fetchFailPage2 none 0 "p2"
    ⟨csvHeader, [rowA], 1, ["p1"], 1, none⟩ "HTTP 500" (by decide)).1]
  rfl

end Scrape

namespace Scrape

lemma replaceSubAux_pound_id : ∀ (fuel : Nat) (l : List Char),
    replaceSubAux '£' [] ['£'] fuel l = l := by
  intro fuel
  induction fuel with
  | zero => intro l; rfl
  | succ n ih =>
    intro l
    cases l with
    | nil => rfl
    | cons c rest =>
      by_cases h : c = '£'
      · subst h
        simp [replaceSubAux, List.isPrefixOf, ih]
      · simp [replaceSubAux, List.isPrefixOf, Ne.symm h, ih]

lemma replaceSub_pound_id (l : List Char) : replaceSub '£' [] ['£'] l = l :=
  replaceSubAux_pound_id l.length l

lemma replaceSubAux_moji_no_A : ∀ (fuel : Nat) (l : List Char),
    l.length ≤ fuel → mojibakeSafe l = true →
    ∀ c ∈ replaceSubAux 'Â' ['£'] ['£'] fuel l, c ≠ 'Â' := by
  intro fuel
  induction fuel with
  | zero =>
    intro l hl hs c hc
    have h0 : l = [] := List.length_eq_zero.mp (Nat.le_zero.mp hl)
    subst h0
    simp [replaceSubAux] at hc
  | succ n ih =>
    intro l hl hs c hc
    cases l with
    | nil => simp [replaceSubAux] at hc
    | cons a rest =>
      by_cases ha : a = 'Â'
      · subst ha
        cases rest with
        | nil => simp [mojibakeSafe] at hs
        | cons b rest2 =>
          have hb2 : b = '£' ∧ mojibakeSafe rest2 = true := by
            simpa [mojibakeSafe] using hs
          obtain ⟨hb, hs2⟩ := hb2
          subst hb
          simp only [replaceSubAux, List.isPrefixOf, List.drop, beq_self_eq_true,
            Bool.and_self, if_true, Bool.true_and, List.isPrefixOf_nil_left,
            if_pos, List.append_eq, List.cons_append, List.nil_append] at hc
          rcases List.mem_cons.mp hc with h1 | h1
          · subst h1
            decide
          · have hlen : rest2.length ≤ n := by
              simp only [List.length_cons] at hl
              omega
            exact ih rest2 hlen hs2 c h1
      · have hs2 : mojibakeSafe rest = true := by
          cases rest with
          | nil => rfl
          | cons b rest2 =>
            have hs' : (if a = 'Â' then decide (b = '£') && mojibakeSafe rest2
                else mojibakeSafe (b :: rest2)) = true := hs
            rwa [if_neg ha] at hs' 
        rw [replaceSubAux, if_neg (by simp [List.isPrefixOf, beq_iff_eq, Ne.symm ha])] at hc
        rcases List.mem_cons.mp hc with h1 | h1
        · subst h1
          exact ha
        · have hlen : rest.length ≤ n := by
            simp only [List.length_cons] at hl
            omega
          exact ih rest hlen hs2 c h1

lemma hasSubstr_head_mem : ∀ {l : List Char} {c : Char} {cs : List Char},
    hasSubstr (c :: cs) l = true → c ∈ l := by
  intro l
  induction l with
  | nil =>
    intro c cs h
    simp [hasSubstr] at h
  | cons a rest ih =>
    intro c cs h
    simp only [hasSubstr, Bool.or_eq_true] at h
    rcases h with h | h
    · simp only [List.isPrefixOf, Bool.and_eq_true, beq_iff_eq] at h
      rw [h.1]
      exact List.mem_cons_self a rest
    · exact List.mem_cons_of_mem a (ih h)

lemma fix_mojibake_eq (price : String) :
    fix_mojibake price =
      ⟨replaceSub '£' [] ['£']
        (if hasSubstr ['Â', '£'] price.data then ⟨replaceSub 'Â' ['£'] ['£'] price.data⟩
         else price).data⟩ := rfl

/-- Counterexample to claim C9: a card whose raw price text is
`"ÂÂ££9.99"` is emitted with `price_raw = "Â££9.99"` — the single
left-to-right replacement pass creates a fresh `"Â£"` occurrence, so an
emitted `price_raw` can still contain the mis-decoded sequence. -/
theorem mojibake_counterexample :
    (extract_rows "https://example.com/p" none [cardMoji]).map
        (fun rows => rows.map Row.price_raw)
      = .ok ["Â££9.99"]
    ∧ hasSubstr ['Â', '£'] "Â££9.99".data = true := by
  exact ⟨by decide, by decide⟩

/-- Claim C9 as amended: the repair replaces the occurrences of `"Â£"`
in one left-to-right non-overlapping pass; whenever every `'Â'` in the
raw text opens such an occurrence (the realistic mojibake shape), the
emitted `price_raw` contains no `"Â£"` — only pathological texts where
the pass itself creates a fresh adjacency (such as `"ÂÂ££"`) escape it. -/
theorem mojibake_repair_amended (raw : String) (h : mojibakeSafe raw.data = true) :
    hasSubstr ['Â', '£'] (fix_mojibake raw).data = false := by
  rw [fix_mojibake_eq]
  by_cases hsub : hasSubstr ['Â', '£'] raw.data = true
  · rw [if_pos hsub]
    show hasSubstr ['Â', '£'] (replaceSub '£' [] ['£'] (replaceSub 'Â' ['£'] ['£'] raw.data))
      = false
    rw [replaceSub_pound_id]
    have hno := replaceSubAux_moji_no_A raw.data.length raw.data le_rfl h
    by_contra hcon
    rw [Bool.not_eq_false] at hcon
    exact hno 'Â' (hasSubstr_head_mem hcon) rfl
  · rw [if_neg hsub]
    show hasSubstr ['Â', '£'] (replaceSub '£' [] ['£'] raw.data) = false
    rw [replaceSub_pound_id]
    simp only [Bool.not_eq_true] at hsub
    exact hsub

/-- Witness for the amended C9 at the mojibake text `"Â£51.77"`. -/
theorem mojibake_repair_amended_witness :
    hasSubstr ['Â', '£'] (fix_mojibake "Â£51.77").data = false :=
  mojibake_repair_amended "Â£51.77" (by decide)

end Scrape
